import Mathlib

/-!
Verification of FreeShow source excerpts:
* the Electron main-process helpers (error logger, uncaught-exception
  handler, screen/window enumeration), and
* the frontend audio spectrum analyzer
  (src/frontend/audio/spectrumAnalyzer.ts).

Numeric code is embedded over an arbitrary linear ordered field `K`
(instantiated with ℚ for executable witnesses and with ℝ where the
source uses logarithms and powers).  JavaScript array access `a[i] || 0`
is embedded as `jsGet`, `Date.now()` timestamps as integers, and the
`requestAnimationFrame` scheduling as a boolean flag.
-/

namespace FreeShow

/-! ## Main-process error logger (part_000, logError / catchErrors) -/

/-- The three log stores used by `logError`. -/
inductive LogKey
  | main
  | renderer
  | request
deriving DecidableEq, Repr

/-- An entry of the error log, with the fields `createLog` produces.
`dev` is the flag set by `logError` when not running in production. -/
structure ErrorLog where
  time : ℕ
  os : String
  version : String
  type : String
  source : String
  message : List Char
  stack : String
  dev : Bool
deriving DecidableEq, Repr

/-- `const maxLogLength = 250`. -/
def maxLogLength : ℕ := 250

/-- `if (!isProd) log.dev = true` at the top of `logError`. -/
def markDev (isProd : Bool) (log : ErrorLog) : ErrorLog :=
  if isProd then log else { log with dev := true }

/-- The list part of `logError`: push the new entry, then
`slice(length - maxLogLength)` when the bound is exceeded. -/
def logErrorList (previousLog : List ErrorLog) (log : ErrorLog) : List ErrorLog :=
  let l := previousLog ++ [log]
  if l.length > maxLogLength then l.drop (l.length - maxLogLength) else l

/-- `logError(log, key)`: read the stored log for `key`, append the
(possibly dev-marked) entry, truncate, and store it back (the empty
check after the push mirrors `if (!previousLog.length) return`). -/
def logError (isProd : Bool) (store : LogKey → List ErrorLog) (log : ErrorLog)
    (key : LogKey) : LogKey → List ErrorLog :=
  if (logErrorList (store key) (markDev isProd log)).length = 0 then store
  else fun k =>
    if k = key then logErrorList (store key) (markDev isProd log) else store k

/-- Decidable "pattern occurs inside message" used for
`err.message.includes(a)`. -/
def hasSub (message pat : List Char) : Bool :=
  (List.range (message.length + 1)).any fun i => pat.isPrefixOf (message.drop i)

/-- `const ERROR_FILTER = ["ENOENT: no such file or directory"]`. -/
def ERROR_FILTER : List (List Char) :=
  ["ENOENT: no such file or directory".data]

/-- A JavaScript `Error` as seen by the uncaught-exception handler. -/
structure JsError where
  message : List Char
  stack : String
deriving DecidableEq, Repr

/-- `createLog(err)`: the entry built for an uncaught exception
(`os: process.platform || "Unknown"`). -/
def createLog (now : ℕ) (platform version : String) (err : JsError) : ErrorLog :=
  { time := now
    os := if platform = "" then "Unknown" else platform
    version := version
    type := "Uncaught Exception"
    source := "See stack"
    message := err.message
    stack := err.stack
    dev := false }

/-- The handler installed by `catchErrors` on `uncaughtException`:
return unchanged when some `ERROR_FILTER` entry occurs in the message,
otherwise `logError(createLog(err), "main")`. -/
def uncaughtHandler (isProd : Bool) (now : ℕ) (platform version : String)
    (store : LogKey → List ErrorLog) (err : JsError) : LogKey → List ErrorLog :=
  if (ERROR_FILTER.any fun a => hasSub err.message a) then store
  else logError isProd store (createLog now platform version err) LogKey.main

/-! ## Main-process screen enumeration (part_000, getScreens) -/

/-- A `DesktopCapturerSource`. -/
structure Source where
  name : String
  id : String
deriving DecidableEq, Repr

/-- A FreeShow `BrowserWindow` (main window or an output window). -/
structure OutputWindow where
  title : String
  mediaSourceId : String
deriving DecidableEq, Repr

/-- The `{ name, id }` records `getScreens` resolves with. -/
structure NamedId where
  name : String
  id : String
deriving DecidableEq, Repr

/-- The `type` argument of `getScreens`. -/
inductive ScreenType
  | screen
  | window
deriving DecidableEq, Repr

/-- `addFreeShowWindows`: for each of FreeShow's own windows (main window
first, then output windows), push `{ name: title, id: mediaSourceId }`
unless a captured source already has that id. -/
def addFreeShowWindows (screens : List NamedId) (sources : List Source)
    (wins : List OutputWindow) : List NamedId :=
  wins.foldl
    (fun acc w =>
      if (sources.find? fun a => a.id == w.mediaSourceId).isSome then acc
      else acc ++ [⟨w.title, w.mediaSourceId⟩])
    screens

/-- `getScreens(type)`: on failure of `desktopCapturer.getSources` the
promise logs the error and resolves with `[]`; on success it resolves
with one `{ name, id }` per source, plus FreeShow's own windows when
`type === "window"`.  The second component collects `console.error`
output. -/
def getScreens (type : ScreenType) (result : Except String (List Source))
    (wins : List OutputWindow) : List NamedId × List String :=
  match result with
  | Except.error err => ([], ["Could not get screens: " ++ err])
  | Except.ok sources =>
      let screens := sources.map fun s => (⟨s.name, s.id⟩ : NamedId)
      if type = ScreenType.window then (addFreeShowWindows screens sources wins, [])
      else (screens, [])

/-! ## Spectrum analyzer (spectrumAnalyzer.ts) — data model -/

section Analyzer

variable {K : Type} [LinearOrderedField K]

/-- JavaScript `array[i] || 0`: out-of-range (or negative) access yields
`undefined`, and `undefined || 0` / `0 || 0` both give `0`. -/
def jsGet (l : List K) (i : ℤ) : K :=
  if 0 ≤ i then l.getD i.toNat 0 else 0

/-- `private readonly updateInterval = 50` (milliseconds). -/
def updateInterval : ℤ := 50

/-- `private readonly smoothingFactor = 0.15`. -/
def smoothingFactor : K := 15 / 100

/-- `private readonly numBars = 100`. -/
def numBars : ℕ := 100

/-- `private readonly minFreq = 20`. -/
def minFreq : K := 20

/-- `private readonly maxFreq = 20000`. -/
def maxFreq : K := 20000

/-- The part of a Web Audio `AnalyserNode` the code reads. -/
structure AnalyserInfo (K : Type) where
  fftSize : ℕ
  sampleRate : K
  frequencyBinCount : ℕ
deriving Repr

/-- The mutable fields of a `SpectrumAnalyzer` instance.  The
`requestAnimationFrame` handle is embedded as a "scheduled" flag. -/
structure SpectrumState (K : Type) where
  frequencyData : List K
  smoothedFrequencyData : List K
  isAnalyzing : Bool
  lastUpdateTime : ℤ
  animationFrame : Bool
  actualFFTSize : ℕ
  actualSampleRate : K
deriving Repr

/-- Result of one invocation of `updateFrequencyData`. -/
structure StepResult (K : Type) where
  state : SpectrumState K
  callbackInvoked : Bool
deriving Repr

/-- `getFrequencyData()`: returns the smoothed array. -/
def getFrequencyData (st : SpectrumState K) : List K :=
  st.smoothedFrequencyData

/-- One invocation of `updateFrequencyData`, at clock time `currentTime`
(`Date.now()`), where `sample?` is `some tempData` when
`AudioAnalyser.getAnalysers()` is non-empty and `tempData` is what
`getByteFrequencyData` wrote, and `none` otherwise.  Mirrors the source:
early return when not analyzing; reschedule-only when less than
`updateInterval` has elapsed; otherwise stamp `lastUpdateTime`, copy the
sample (resizing both arrays to the sample's length when the stored
length differs, which zeroes the smoothed array), apply the exponential
smoothing, and fire the callback. -/
def updateStep (st : SpectrumState K) (currentTime : ℤ)
    (sample? : Option (List K)) : StepResult K :=
  if st.isAnalyzing = false then ⟨st, false⟩
  else if currentTime - st.lastUpdateTime < updateInterval then
    ⟨{ st with animationFrame := true }, false⟩
  else
    let st1 := { st with lastUpdateTime := currentTime }
    match sample? with
    | none => ⟨{ st1 with animationFrame := true }, false⟩
    | some tempData =>
        let preSmoothed :=
          if st1.frequencyData.length = tempData.length then st1.smoothedFrequencyData
          else List.replicate tempData.length 0
        let sm := (List.range tempData.length).map fun i =>
          smoothingFactor * tempData.getD i 0 +
            (1 - smoothingFactor) * preSmoothed.getD i 0
        ⟨{ st1 with
            frequencyData := tempData
            smoothedFrequencyData := sm
            animationFrame := true }, true⟩

/-- Sample rate used by the frequency math: the analyser's when one is
available, the stored `actualSampleRate` otherwise. -/
def effSampleRate (st : SpectrumState K) (an? : Option (AnalyserInfo K)) : K :=
  match an? with
  | some a => a.sampleRate
  | none => st.actualSampleRate

/-- FFT size used by the frequency math. -/
def effFFTSize (st : SpectrumState K) (an? : Option (AnalyserInfo K)) : ℕ :=
  match an? with
  | some a => a.fftSize
  | none => st.actualFFTSize

variable [FloorRing K]

/-- `frequencyToBin`: `Math.round(frequency * fftSize / sampleRate)`,
returned as a number (`Math.round(x) = ⌊x + 1/2⌋`). -/
def frequencyToBin (st : SpectrumState K) (an? : Option (AnalyserInfo K))
    (frequency : K) : K :=
  ((⌊frequency * (effFFTSize st an? : K) / effSampleRate st an? + 1 / 2⌋ : ℤ) : K)

/-- `getFrequencyAmplitude(frequency)` with its clamping and
"interpolation" between `Math.floor` and `Math.ceil` of the bin index. -/
def getFrequencyAmplitude (st : SpectrumState K) (an? : Option (AnalyserInfo K))
    (frequency : K) : K :=
  let binIndex := frequencyToBin st an? frequency
  let data := st.smoothedFrequencyData
  let maxBin : ℤ := (data.length : ℤ) - 1
  if binIndex ≤ 0 then jsGet data 0
  else if ((maxBin : K)) ≤ binIndex then jsGet data maxBin
  else
    let lowerBin := ⌊binIndex⌋
    let upperBin := ⌈binIndex⌉
    let fraction := binIndex - (lowerBin : K)
    let lowerValue := jsGet data lowerBin
    let upperValue := jsGet data upperBin
    lowerValue + (upperValue - lowerValue) * fraction

/-- The nearest-bin lookup the claim says `getFrequencyAmplitude` is
equivalent to: the single smoothed bin value at index
`round(frequency * fftSize / sampleRate)` clamped into
`[0, length - 1]`. -/
def nearestBinAmplitude (st : SpectrumState K) (an? : Option (AnalyserInfo K))
    (frequency : K) : K :=
  let data := st.smoothedFrequencyData
  let b : ℤ := ⌊frequency * (effFFTSize st an? : K) / effSampleRate st an? + 1 / 2⌋
  jsGet data (max 0 (min ((data.length : ℤ) - 1) b))

/-- One iteration of the weighted-averaging loop in
`getAveragedFrequencyAmplitude`: accumulator is
`(weightedSum, totalWeight)`. -/
def avgStep (data : List K) (startFreq endFreq frequencyResolution : K)
    (acc : K × K) (bin : ℤ) : K × K :=
  let binStartFreq := (bin : K) * frequencyResolution
  let binEndFreq := ((bin : K) + 1) * frequencyResolution
  let overlapStart := max startFreq binStartFreq
  let overlapEnd := min endFreq binEndFreq
  let overlapAmount := max 0 (overlapEnd - overlapStart)
  if 0 < overlapAmount then
    let weight := overlapAmount / frequencyResolution
    (acc.1 + jsGet data bin * weight, acc.2 + weight)
  else acc

/-- The bins visited by the `for (bin = startBin; bin <= endBin; bin++)`
loop, with the `if (bin >= totalBins) break` guard. -/
def binRange (startBin endBin : ℤ) (totalBins : ℕ) : List ℤ :=
  (((List.range (endBin + 1 - startBin).toNat).map
      fun k : ℕ => startBin + (k : ℤ)).takeWhile
    fun b => b < (totalBins : ℤ))

/-- `getAveragedFrequencyAmplitude(startFreq, endFreq,
frequencyResolution, totalBins)`. -/
def getAveragedFrequencyAmplitude (data : List K)
    (startFreq endFreq frequencyResolution : K) (totalBins : ℕ) : K :=
  let startBinFloat := startFreq / frequencyResolution
  let endBinFloat := endFreq / frequencyResolution
  let startBin : ℤ := max 0 ⌊startBinFloat⌋
  let endBin : ℤ := min ((totalBins : ℤ) - 1) ⌈endBinFloat⌉
  if startBin = endBin then
    if startBin < (totalBins : ℤ) - 1 then
      let fraction := startBinFloat - (startBin : K)
      let currentValue := jsGet data startBin
      let nextValue := jsGet data (startBin + 1)
      currentValue + (nextValue - currentValue) * fraction
    else jsGet data startBin
  else
    let r := (binRange startBin endBin totalBins).foldl
      (avgStep data startFreq endFreq frequencyResolution) (0, 0)
    if 0 < r.2 then r.1 / r.2 else 0

end Analyzer

/-! ## Spectrum analyzer — bar generation and log-scale maps (over ℝ) -/

/-- A `SpectrumBar` record. -/
structure SpectrumBar where
  x : ℝ
  width : ℝ
  height : ℝ
  frequency : ℝ
  amplitude : ℝ

instance : Inhabited SpectrumBar := ⟨⟨0, 0, 0, 0, 0⟩⟩

/-- `maxDisplayFreq`: `maxFreq`, limited to the Nyquist frequency when
an analyser is available. -/
noncomputable def maxDisplayFreq (an? : Option (AnalyserInfo ℝ)) : ℝ :=
  match an? with
  | some a => min maxFreq (a.sampleRate / 2)
  | none => maxFreq

/-- The bar built by iteration `i` of the loop in
`generateSpectrumBars`, given the already-extracted `data`,
`sampleRate`, `fftSize` and `maxDF` (= `maxDisplayFreq`). -/
noncomputable def spectrumBarAt (data : List ℝ) (sampleRate : ℝ) (fftSize : ℕ)
    (maxDF : ℝ) (canvasWidth canvasHeight : ℝ) (i : ℕ) : SpectrumBar :=
  let barWidth := canvasWidth / (numBars : ℝ)
  let frequencyResolution := sampleRate / (fftSize : ℝ)
  let totalBins := data.length
  let logMin := Real.logb 10 minFreq
  let logMax := Real.logb 10 maxDF
  let x := (i : ℝ) * barWidth
  let logProgress := (i : ℝ) / (numBars : ℝ)
  let logFreq := logMin + logProgress * (logMax - logMin)
  let frequency := (10 : ℝ) ^ logFreq
  let nextLogProgress := ((i : ℝ) + 1) / (numBars : ℝ)
  let nextLogFreq := logMin + nextLogProgress * (logMax - logMin)
  let nextFrequency := if i = numBars - 1 then maxDF else (10 : ℝ) ^ nextLogFreq
  let amplitude :=
    getAveragedFrequencyAmplitude data frequency nextFrequency frequencyResolution totalBins
  let normalizedAmplitude := amplitude / 255
  let logAmplitude :=
    if 0 < normalizedAmplitude then Real.logb 10 (normalizedAmplitude * 9 + 1) else 0
  let height := logAmplitude * canvasHeight * 0.9
  { x := x
    width := barWidth - 1
    height := max 0 height
    frequency := frequency
    amplitude := normalizedAmplitude }

/-- `generateSpectrumBars(canvasWidth, canvasHeight)`. -/
noncomputable def generateSpectrumBars (st : SpectrumState ℝ)
    (an? : Option (AnalyserInfo ℝ)) (canvasWidth canvasHeight : ℝ) : List SpectrumBar :=
  (List.range numBars).map
    (spectrumBarAt st.smoothedFrequencyData (effSampleRate st an?) (effFFTSize st an?)
      (maxDisplayFreq an?) canvasWidth canvasHeight)

/-- `frequencyToX(frequency, canvasWidth)`. -/
noncomputable def frequencyToX (frequency canvasWidth : ℝ) : ℝ :=
  let logMin := Real.logb 10 minFreq
  let logMax := Real.logb 10 maxFreq
  let logFreq := Real.logb 10 frequency
  ((logFreq - logMin) / (logMax - logMin)) * canvasWidth

/-- `xToFrequency(x, canvasWidth)`. -/
noncomputable def xToFrequency (x canvasWidth : ℝ) : ℝ :=
  let logMin := Real.logb 10 minFreq
  let logMax := Real.logb 10 maxFreq
  let logFreq := logMin + (x / canvasWidth) * (logMax - logMin)
  (10 : ℝ) ^ logFreq

/-! ## Helper lemmas -/

/-- Characterization of one `logErrorList` call: the result keeps
exactly the most recent entries (it is a suffix of the pushed list) with
the new entry last, and its length is the pushed length capped at
`maxLogLength`. -/
lemma logErrorList_spec (prev : List ErrorLog) (log : ErrorLog) :
    (logErrorList prev log).length = min (prev.length + 1) maxLogLength ∧
    List.IsSuffix (logErrorList prev log) (prev ++ [log]) ∧
    (logErrorList prev log).getLast? = some log := by
  unfold logErrorList
  by_cases h : (prev ++ [log]).length > maxLogLength
  · rw [if_pos h]
    refine ⟨?_, List.drop_suffix _ _, ?_⟩
    · simp only [List.length_drop, List.length_append, List.length_cons,
        List.length_nil] at h ⊢
      omega
    · rw [List.drop_append_eq_append_drop]
      have h0 : (prev ++ [log]).length - maxLogLength - prev.length = 0 := by
        simp only [List.length_append, List.length_cons, List.length_nil]
        unfold maxLogLength
        omega
      rw [h0, List.drop_zero, List.getLast?_concat]
  · rw [if_neg h]
    refine ⟨?_, List.suffix_refl _, List.getLast?_concat _⟩
    simp only [List.length_append, List.length_cons, List.length_nil] at h ⊢
    omega

/-- The log produced by `logErrorList` is never empty. -/
lemma logErrorList_length_pos (prev : List ErrorLog) (log : ErrorLog) :
    0 < (logErrorList prev log).length := by
  have h := (logErrorList_spec prev log).1
  rw [h]
  unfold maxLogLength
  omega

/-- `addFreeShowWindows` appends exactly the FreeShow windows whose
media-source id is not among the captured sources. -/
lemma addFreeShowWindows_eq (screens : List NamedId) (sources : List Source)
    (wins : List OutputWindow) :
    addFreeShowWindows screens sources wins =
      screens ++
        (wins.filter fun w => (sources.find? fun a => a.id == w.mediaSourceId).isNone).map
          (fun w => ⟨w.title, w.mediaSourceId⟩) := by
  induction wins generalizing screens with
  | nil => simp [addFreeShowWindows]
  | cons w ws ih =>
      unfold addFreeShowWindows at ih ⊢
      simp only [List.foldl_cons, List.filter_cons]
      cases hfind : sources.find? fun a => a.id == w.mediaSourceId with
      | none =>
          simp only [hfind, Option.isSome_none, Option.isNone_none,
            Bool.false_eq_true, if_false, if_true]
          rw [ih]
          simp
      | some v =>
          simp only [hfind, Option.isSome_some, Option.isNone_some,
            Bool.false_eq_true, if_false, if_true]
          exact ih screens

/-! ## Claims about the main-process helpers -/

/-- Claim C5: every `logError` call leaves at most `maxLogLength` (250)
entries stored for the key, and the stored list is exactly the most
recent entries of the pushed list (a suffix of it, of length capped at
250) with the new — possibly dev-marked — entry last. -/
theorem logError_bounded (isProd : Bool) (store : LogKey → List ErrorLog)
    (log : ErrorLog) (key : LogKey) :
    ((logError isProd store log key) key).length ≤ maxLogLength ∧
    ((logError isProd store log key) key).length =
      min ((store key).length + 1) maxLogLength ∧
    List.IsSuffix ((logError isProd store log key) key)
      (store key ++ [markDev isProd log]) ∧
    ((logError isProd store log key) key).getLast? = some (markDev isProd log) := by
  have hspec := logErrorList_spec (store key) (markDev isProd log)
  have hpos := logErrorList_length_pos (store key) (markDev isProd log)
  have hkey : (logError isProd store log key) key =
      logErrorList (store key) (markDev isProd log) := by
    unfold logError
    rw [if_neg (by omega)]
    rw [if_pos rfl]
  rw [hkey]
  exact ⟨by rw [hspec.1]; omega, hspec.1, hspec.2.1, hspec.2.2⟩

/-- Claim C6: the handler installed by `catchErrors` leaves the stored
logs unchanged exactly when the exception's message contains an
`ERROR_FILTER` entry; otherwise it appends the `createLog` entry under
the `main` key (and touches no other key). -/
theorem catchErrors_filtering (isProd : Bool) (now : ℕ) (platform version : String)
    (store : LogKey → List ErrorLog) (err : JsError) :
    ((ERROR_FILTER.any fun a => hasSub err.message a) = true →
      uncaughtHandler isProd now platform version store err = store) ∧
    ((ERROR_FILTER.any fun a => hasSub err.message a) = false →
      (uncaughtHandler isProd now platform version store err) LogKey.main =
        logErrorList (store LogKey.main)
          (markDev isProd (createLog now platform version err)) ∧
      ∀ k, k ≠ LogKey.main →
        (uncaughtHandler isProd now platform version store err) k = store k) := by
  constructor
  · intro h
    unfold uncaughtHandler
    rw [if_pos h]
  · intro h
    unfold uncaughtHandler
    rw [if_neg (by simp [h])]
    have hpos := logErrorList_length_pos (store LogKey.main)
      (markDev isProd (createLog now platform version err))
    unfold logError
    rw [if_neg (by omega)]
    exact ⟨by rw [if_pos rfl], fun k hk => by rw [if_neg hk]⟩

/-- Witness for C6 at concrete inputs: a filtered `ENOENT` exception
leaves the store unchanged, and an unfiltered exception appends its
entry under the `main` key. -/
theorem catchErrors_filtering_witness :
    uncaughtHandler true 0 "linux" "1.0"
        (fun _ => []) ⟨"ENOENT: no such file or directory".data, ""⟩ =
      (fun _ => []) ∧
    (uncaughtHandler true 0 "linux" "1.0" (fun _ => []) ⟨"boom".data, ""⟩)
        LogKey.main =
      logErrorList [] (markDev true (createLog 0 "linux" "1.0" ⟨"boom".data, ""⟩)) :=
  ⟨(catchErrors_filtering true 0 "linux" "1.0" (fun _ => [])
      ⟨"ENOENT: no such file or directory".data, ""⟩).1 (by decide),
   ((catchErrors_filtering true 0 "linux" "1.0" (fun _ => [])
      ⟨"boom".data, ""⟩).2 (by decide)).1⟩

/-- Claim C7: `getScreens` never rejects — on capture failure it logs
the error and resolves with the empty list, on success it resolves with
one `{name, id}` entry per captured source, plus (window type only)
FreeShow's own windows whose id is not already among the sources. -/
theorem getScreens_total_and_shape (type : ScreenType) (e : String)
    (ss : List Source) (wins : List OutputWindow) :
    getScreens type (Except.error e) wins = ([], ["Could not get screens: " ++ e]) ∧
    getScreens ScreenType.screen (Except.ok ss) wins =
      (ss.map fun s => (⟨s.name, s.id⟩ : NamedId), []) ∧
    getScreens ScreenType.window (Except.ok ss) wins =
      ((ss.map fun s => (⟨s.name, s.id⟩ : NamedId)) ++
        (wins.filter fun w => (ss.find? fun a => a.id == w.mediaSourceId).isNone).map
          (fun w => ⟨w.title, w.mediaSourceId⟩), []) := by
  refine ⟨rfl, by simp [getScreens], ?_⟩
  simp [getScreens, addFreeShowWindows_eq]

/-! ## Analyzer update-step claims -/

/-- Indexing a `map` over `List.range`. -/
lemma getD_map_range {α : Type} (f : ℕ → α) (d : α) {n i : ℕ} (h : i < n) :
    ((List.range n).map f).getD i d = f i := by
  rw [List.getD_eq_getElem?_getD, List.getElem?_map, List.getElem?_range h]
  rfl

/-- Claim C3: a step of `updateFrequencyData` arriving less than
`updateInterval` (50 ms) after `lastUpdateTime` performs no sampling, no
smoothing and no callback: the state is unchanged except that the next
animation frame is scheduled. -/
theorem updateStep_throttled {K : Type} [LinearOrderedField K]
    (st : SpectrumState K) (t : ℤ) (sample? : Option (List K))
    (h1 : st.isAnalyzing = true) (h2 : t - st.lastUpdateTime < updateInterval) :
    (updateStep st t sample?).state = { st with animationFrame := true } ∧
    (updateStep st t sample?).callbackInvoked = false := by
  unfold updateStep
  rw [if_neg (by simp [h1]), if_pos h2]
  exact ⟨rfl, rfl⟩

/-- Witness for C3: a concrete throttled step (20 ms elapsed) only
reschedules. -/
theorem updateStep_throttled_witness :
    (updateStep (⟨[1], [2], true, 100, false, 256, 48000⟩ : SpectrumState ℚ)
        120 (some [3])).state =
      { (⟨[1], [2], true, 100, false, 256, 48000⟩ : SpectrumState ℚ) with
          animationFrame := true } ∧
    (updateStep (⟨[1], [2], true, 100, false, 256, 48000⟩ : SpectrumState ℚ)
        120 (some [3])).callbackInvoked = false :=
  updateStep_throttled _ 120 (some [3]) rfl (by decide)

/-- Unfolding of a sampling step (analyzing, interval elapsed, analyser
present). -/
lemma updateStep_sampled {K : Type} [LinearOrderedField K]
    (st : SpectrumState K) (t : ℤ) (sample : List K)
    (h1 : st.isAnalyzing = true) (h2 : updateInterval ≤ t - st.lastUpdateTime) :
    updateStep st t (some sample) =
      ⟨{ st with
          lastUpdateTime := t
          frequencyData := sample
          smoothedFrequencyData := (List.range sample.length).map fun i =>
            smoothingFactor * sample.getD i 0 +
              (1 - smoothingFactor) *
                ((if st.frequencyData.length = sample.length
                  then st.smoothedFrequencyData
                  else List.replicate sample.length 0).getD i 0)
          animationFrame := true }, true⟩ := by
  unfold updateStep
  rw [if_neg (by simp [h1]), if_neg (not_lt.mpr h2)]

/-- Claim C1: in a step where an analyser sample is taken (analyzing,
50 ms elapsed), every element of the smoothed array becomes
`smoothingFactor` times the sampled byte value plus
`1 - smoothingFactor` times the element's previous value (`0` when the
arrays were just resized to the sample's length).  The hypothesis
`hlen` is the class invariant that both arrays always have the same
length (true of every reachable state; without it the JavaScript loop
would read `undefined`). -/
theorem updateStep_smoothing {K : Type} [LinearOrderedField K]
    (st : SpectrumState K) (t : ℤ) (sample : List K)
    (h1 : st.isAnalyzing = true) (h2 : updateInterval ≤ t - st.lastUpdateTime)
    (hlen : st.smoothedFrequencyData.length = st.frequencyData.length)
    (i : ℕ) (hi : i < sample.length) :
    (updateStep st t (some sample)).state.smoothedFrequencyData.getD i 0 =
      smoothingFactor * sample.getD i 0 +
        (1 - smoothingFactor) *
          (if st.frequencyData.length = sample.length
           then st.smoothedFrequencyData.getD i 0 else 0) := by
  rw [updateStep_sampled st t sample h1 h2]
  simp only []
  rw [getD_map_range _ _ hi]
  by_cases h : st.frequencyData.length = sample.length
  · rw [if_pos h, if_pos h]
  · rw [if_neg h, if_neg h]
    have hrep : (List.replicate sample.length (0 : K)).getD i 0 = 0 := by
      rw [List.getD_eq_getElem?_getD, List.getElem?_replicate]
      simp [hi]
    rw [hrep]

/-- Witness for C1: one concrete smoothing step,
`0.15 * 100 + 0.85 * 4 = 18.4`. -/
theorem updateStep_smoothing_witness :
    (updateStep (⟨[0, 0], [4, 8], true, 0, false, 256, 48000⟩ : SpectrumState ℚ)
        100 (some [100, 200])).state.smoothedFrequencyData.getD 0 0 = 92 / 5 := by
  have h := updateStep_smoothing
    (⟨[0, 0], [4, 8], true, 0, false, 256, 48000⟩ : SpectrumState ℚ)
    100 [100, 200] rfl (by decide) (by decide) 0 (by decide)
  simp only [smoothingFactor] at h
  rw [h]
  norm_num

/-- Counterexample to C4 as stated: two runs that receive the same
current-frame sample (`[0]`) but had different earlier frames expose
different frequency data afterwards — the smoothed array carries state
across frames. -/
theorem exposed_data_depends_on_history :
    getFrequencyData (updateStep
        (⟨[0], [0], true, 0, false, 256, 48000⟩ : SpectrumState ℚ)
        100 (some [0])).state ≠
      getFrequencyData (updateStep
        (⟨[0], [200], true, 0, false, 256, 48000⟩ : SpectrumState ℚ)
        100 (some [0])).state := by
  rw [updateStep_sampled _ _ _ rfl (by decide),
    updateStep_sampled _ _ _ rfl (by decide)]
  simp only [getFrequencyData, smoothingFactor]
  norm_num [List.range_succ]

/-- Claim C4 (amended): the frequency data exposed after a sampling
step is a function of the current frame's sample, the previous smoothed
array and the previous stored array length alone — two runs agreeing on
those expose equal data, regardless of any other prior state (stored
bytes, timestamps, scheduling). -/
theorem exposed_data_from_sample_and_smoothed {K : Type} [LinearOrderedField K]
    (stA stB : SpectrumState K) (tA tB : ℤ) (sample : List K)
    (hA : stA.isAnalyzing = true) (hB : stB.isAnalyzing = true)
    (h2A : updateInterval ≤ tA - stA.lastUpdateTime)
    (h2B : updateInterval ≤ tB - stB.lastUpdateTime)
    (hsm : stA.smoothedFrequencyData = stB.smoothedFrequencyData)
    (hfd : stA.frequencyData.length = stB.frequencyData.length) :
    getFrequencyData (updateStep stA tA (some sample)).state =
      getFrequencyData (updateStep stB tB (some sample)).state := by
  rw [updateStep_sampled stA tA sample hA h2A,
    updateStep_sampled stB tB sample hB h2B]
  simp only [getFrequencyData, hsm, hfd]

/-- Witness for the amended C4: two concrete states agreeing on the
prior smoothed array but differing in stored bytes and timestamps
expose equal data after sampling `[10]`. -/
theorem exposed_data_from_sample_and_smoothed_witness :
    getFrequencyData (updateStep
        (⟨[1], [5], true, 0, false, 256, 48000⟩ : SpectrumState ℚ)
        60 (some [10])).state =
      getFrequencyData (updateStep
        (⟨[2], [5], true, 10, false, 128, 44100⟩ : SpectrumState ℚ)
        100 (some [10])).state :=
  exposed_data_from_sample_and_smoothed
    (⟨[1], [5], true, 0, false, 256, 48000⟩ : SpectrumState ℚ)
    (⟨[2], [5], true, 10, false, 128, 44100⟩ : SpectrumState ℚ)
    60 100 [10] rfl rfl (by decide) (by decide) rfl rfl

/-! ## Frequency lookup and log-scale claims -/

/-- `jsGet` on the empty array is always `0`. -/
lemma jsGet_nil {K : Type} [LinearOrderedField K] (i : ℤ) :
    jsGet ([] : List K) i = 0 := by
  unfold jsGet
  split <;> simp

/-- Claim C10: because `frequencyToBin` rounds to an integer, the floor
and ceiling in `getFrequencyAmplitude` coincide and the interpolation
fraction vanishes, so the "interpolated" lookup is exactly the
nearest-bin lookup at index `round(f * fftSize / sampleRate)` clamped
into `[0, length - 1]`. -/
theorem getFrequencyAmplitude_eq_nearestBin {K : Type} [LinearOrderedField K]
    [FloorRing K] (st : SpectrumState K) (an? : Option (AnalyserInfo K)) (f : K) :
    getFrequencyAmplitude st an? f = nearestBinAmplitude st an? f := by
  simp only [getFrequencyAmplitude, nearestBinAmplitude, frequencyToBin]
  set data := st.smoothedFrequencyData with hdata
  set b : ℤ := ⌊f * ((effFFTSize st an? : ℕ) : K) / effSampleRate st an? + 1 / 2⌋
    with hb
  split_ifs with h0 h1
  · have hb0 : b ≤ 0 := by exact_mod_cast h0
    have hmax : max 0 (min ((data.length : ℤ) - 1) b) = 0 :=
      max_eq_left (le_trans (min_le_right _ _) hb0)
    rw [hmax]
  · have hb1 : (data.length : ℤ) - 1 ≤ b := by exact_mod_cast h1
    have hmin : min ((data.length : ℤ) - 1) b = (data.length : ℤ) - 1 :=
      min_eq_left hb1
    rw [hmin]
    by_cases hl : data.length = 0
    · have hnil : data = [] := List.length_eq_zero.mp hl
      rw [hnil, jsGet_nil, jsGet_nil]
    · have hone : (1 : ℤ) ≤ (data.length : ℤ) := by
        have : 1 ≤ data.length := Nat.one_le_iff_ne_zero.mpr hl
        exact_mod_cast this
      rw [max_eq_right (by omega)]
  · have hbpos : 0 < b := by
      have : (0 : K) < (b : K) := lt_of_not_le h0
      exact_mod_cast this
    have hblt : b < (data.length : ℤ) - 1 := by
      have : ((b : K)) < (((data.length : ℤ) - 1 : ℤ) : K) := by
        push_cast
        push_cast at h1
        linarith [lt_of_not_le h1]
      exact_mod_cast this
    rw [Int.floor_intCast, Int.ceil_intCast,
      min_eq_right (le_of_lt hblt), max_eq_right (le_of_lt hbpos)]
    ring_nf

/-- The log-frequency span of the display range: `log10 20000 - log10 20
= 3`. -/
lemma logSpan_eq_three :
    Real.logb 10 (maxFreq : ℝ) - Real.logb 10 (minFreq : ℝ) = 3 := by
  unfold maxFreq minFreq
  rw [← Real.logb_div (by norm_num) (by norm_num)]
  have h1000 : (20000 : ℝ) / 20 = (10 : ℝ) ^ (3 : ℝ) := by
    rw [show (3 : ℝ) = ((3 : ℕ) : ℝ) from by norm_num, Real.rpow_natCast]
    norm_num
  rw [h1000, Real.logb_rpow (by norm_num) (by norm_num)]

/-- Claim C8: `frequencyToX` and `xToFrequency` are mutually inverse
over real arithmetic: for every positive frequency and positive canvas
width, `xToFrequency ∘ frequencyToX` is the identity, and for every `x`,
`frequencyToX ∘ xToFrequency` is the identity. -/
theorem frequencyToX_xToFrequency_inverse (f x canvasWidth : ℝ)
    (hf : 0 < f) (hw : 0 < canvasWidth) :
    xToFrequency (frequencyToX f canvasWidth) canvasWidth = f ∧
    frequencyToX (xToFrequency x canvasWidth) canvasWidth = x := by
  have hwne : canvasWidth ≠ 0 := ne_of_gt hw
  have hΔ := logSpan_eq_three
  constructor
  · simp only [xToFrequency, frequencyToX]
    rw [hΔ]
    have hexp : Real.logb 10 (minFreq : ℝ) +
        (Real.logb 10 f - Real.logb 10 (minFreq : ℝ)) / 3 * canvasWidth /
          canvasWidth * 3 = Real.logb 10 f := by
      field_simp
      ring
    rw [hexp, Real.rpow_logb (by norm_num) (by norm_num) hf]
  · simp only [xToFrequency, frequencyToX]
    rw [hΔ, Real.logb_rpow (by norm_num) (by norm_num)]
    field_simp
    ring

/-- Witness for C8 at `f = 20`, `x = 1/2`, `canvasWidth = 1`. -/
theorem frequencyToX_xToFrequency_inverse_witness :
    xToFrequency (frequencyToX 20 1) 1 = 20 ∧
    frequencyToX (xToFrequency (1 / 2) 1) 1 = 1 / 2 :=
  frequencyToX_xToFrequency_inverse 20 (1 / 2) 1 (by norm_num) (by norm_num)

/-! ## Bounds for the overlap-weighted averaging -/

/-- `jsGet` respects value bounds on the array (the out-of-range default
`0` lies in `[0, 255]`). -/
lemma jsGet_bounds {K : Type} [LinearOrderedField K] {data : List K}
    (hdata : ∀ v ∈ data, 0 ≤ v ∧ v ≤ 255) (i : ℤ) :
    0 ≤ jsGet data i ∧ jsGet data i ≤ 255 := by
  unfold jsGet
  split
  · rw [List.getD_eq_getElem?_getD]
    cases hv : data[i.toNat]? with
    | none => norm_num
    | some v =>
        have hmem : v ∈ data := List.getElem?_mem hv
        simpa using hdata v hmem
  · norm_num

/-- `jsGet` on a constant array. -/
lemma jsGet_replicate {K : Type} [LinearOrderedField K] (n : ℕ) (c : K) (i : ℤ)
    (h0 : 0 ≤ i) (h1 : i < (n : ℤ)) :
    jsGet (List.replicate n c) i = c := by
  unfold jsGet
  rw [if_pos h0, List.getD_eq_getElem?_getD, List.getElem?_replicate]
  have : i.toNat < n := by omega
  rw [if_pos this]
  rfl

/-- One averaging step preserves the accumulator invariant:
non-negative total weight, non-negative weighted sum bounded by
`255 ×` the total weight. -/
lemma avgStep_preserves {K : Type} [LinearOrderedField K] {data : List K}
    (hdata : ∀ v ∈ data, 0 ≤ v ∧ v ≤ 255)
    (startFreq endFreq frequencyResolution : K)
    (hres : 0 < frequencyResolution) (acc : K × K) (bin : ℤ)
    (h1 : 0 ≤ acc.2) (h2 : 0 ≤ acc.1) (h3 : acc.1 ≤ 255 * acc.2) :
    0 ≤ (avgStep data startFreq endFreq frequencyResolution acc bin).2 ∧
    0 ≤ (avgStep data startFreq endFreq frequencyResolution acc bin).1 ∧
    (avgStep data startFreq endFreq frequencyResolution acc bin).1 ≤
      255 * (avgStep data startFreq endFreq frequencyResolution acc bin).2 := by
  simp only [avgStep]
  split_ifs with hpos
  · simp only []
    have hv := jsGet_bounds hdata bin
    have hw : (0 : K) ≤
        max 0 (min endFreq (((bin : K)) + 1) * frequencyResolution⁻¹) := le_max_left _ _
    have hw0 : (0 : K) ≤
        max 0 (min endFreq (((bin : K) + 1) * frequencyResolution) -
          max startFreq ((bin : K) * frequencyResolution)) / frequencyResolution :=
      div_nonneg (le_max_left _ _) (le_of_lt hres)
    refine ⟨add_nonneg h1 hw0, add_nonneg h2 (mul_nonneg hv.1 hw0), ?_⟩
    calc acc.1 + jsGet data bin *
          (max 0 (min endFreq (((bin : K) + 1) * frequencyResolution) -
            max startFreq ((bin : K) * frequencyResolution)) / frequencyResolution) ≤
        255 * acc.2 + 255 *
          (max 0 (min endFreq (((bin : K) + 1) * frequencyResolution) -
            max startFreq ((bin : K) * frequencyResolution)) / frequencyResolution) :=
          add_le_add h3 (mul_le_mul_of_nonneg_right hv.2 hw0)
      _ = 255 * (acc.2 +
          max 0 (min endFreq (((bin : K) + 1) * frequencyResolution) -
            max startFreq ((bin : K) * frequencyResolution)) / frequencyResolution) := by
          ring
  · exact ⟨h1, h2, h3⟩

/-- Invariant of the averaging fold over any bin list. -/
lemma avgStep_foldl_bounds {K : Type} [LinearOrderedField K] {data : List K}
    (hdata : ∀ v ∈ data, 0 ≤ v ∧ v ≤ 255)
    (startFreq endFreq frequencyResolution : K)
    (hres : 0 < frequencyResolution)
    (bins : List ℤ) (acc : K × K)
    (h1 : 0 ≤ acc.2) (h2 : 0 ≤ acc.1) (h3 : acc.1 ≤ 255 * acc.2) :
    0 ≤ (bins.foldl (avgStep data startFreq endFreq frequencyResolution) acc).2 ∧
    0 ≤ (bins.foldl (avgStep data startFreq endFreq frequencyResolution) acc).1 ∧
    (bins.foldl (avgStep data startFreq endFreq frequencyResolution) acc).1 ≤
      255 * (bins.foldl (avgStep data startFreq endFreq frequencyResolution) acc).2 := by
  induction bins generalizing acc with
  | nil => exact ⟨h1, h2, h3⟩
  | cons bin bins ih =>
      rw [List.foldl_cons]
      have hstep := avgStep_preserves hdata startFreq endFreq frequencyResolution
        hres acc bin h1 h2 h3
      exact ih _ hstep.1 hstep.2.1 hstep.2.2

/-- The averaging routine stays within the value bounds of the data:
with every smoothed bin in `[0, 255]`, a positive frequency resolution
and a non-negative start frequency, its result lies in `[0, 255]`. -/
lemma getAveraged_bounds {K : Type} [LinearOrderedField K] [FloorRing K]
    {data : List K} (hdata : ∀ v ∈ data, 0 ≤ v ∧ v ≤ 255)
    (startFreq endFreq frequencyResolution : K) (totalBins : ℕ)
    (hres : 0 < frequencyResolution) (hsf : 0 ≤ startFreq) :
    0 ≤ getAveragedFrequencyAmplitude data startFreq endFreq
        frequencyResolution totalBins ∧
    getAveragedFrequencyAmplitude data startFreq endFreq
        frequencyResolution totalBins ≤ 255 := by
  have hsbf : (0 : K) ≤ startFreq / frequencyResolution :=
    div_nonneg hsf (le_of_lt hres)
  have hfl0 : 0 ≤ ⌊startFreq / frequencyResolution⌋ := Int.floor_nonneg.mpr hsbf
  have hmax : max 0 ⌊startFreq / frequencyResolution⌋ =
      ⌊startFreq / frequencyResolution⌋ := max_eq_right hfl0
  simp only [getAveragedFrequencyAmplitude]
  rw [hmax]
  split_ifs with heq hlt hw
  · have hfr0 : (0 : K) ≤ startFreq / frequencyResolution -
        (⌊startFreq / frequencyResolution⌋ : K) := by
      have := Int.floor_le (startFreq / frequencyResolution)
      linarith
    have hfr1 : startFreq / frequencyResolution -
        (⌊startFreq / frequencyResolution⌋ : K) ≤ 1 := by
      have := Int.lt_floor_add_one (startFreq / frequencyResolution)
      linarith
    have hcv := jsGet_bounds hdata ⌊startFreq / frequencyResolution⌋
    have hnv := jsGet_bounds hdata (⌊startFreq / frequencyResolution⌋ + 1)
    constructor
    · nlinarith [mul_nonneg hcv.1 (sub_nonneg.mpr hfr1),
        mul_nonneg hnv.1 hfr0]
    · nlinarith [mul_nonneg (sub_nonneg.mpr hcv.2) (sub_nonneg.mpr hfr1),
        mul_nonneg (sub_nonneg.mpr hnv.2) hfr0]
  · exact jsGet_bounds hdata _
  · have hfold := avgStep_foldl_bounds hdata startFreq endFreq
      frequencyResolution hres
      (binRange (⌊startFreq / frequencyResolution⌋)
        (min ((totalBins : ℤ) - 1) ⌈endFreq / frequencyResolution⌉) totalBins)
      (0, 0) (le_refl 0) (le_refl 0) (by norm_num)
    exact ⟨div_nonneg hfold.2.1 (le_of_lt hw), (div_le_iff₀ hw).mpr hfold.2.2⟩
  · norm_num

/-- Claim C9: whenever every smoothed bin value lies in `[0, 255]` (and
the canvas height and the effective sample rate / FFT size are
non-degenerate), every bar of `generateSpectrumBars` has its amplitude
in `[0, 1]` and its height in `[0, 0.9 × canvasHeight]`. -/
theorem generateSpectrumBars_bounded (st : SpectrumState ℝ)
    (an? : Option (AnalyserInfo ℝ)) (canvasWidth canvasHeight : ℝ)
    (hch : 0 ≤ canvasHeight)
    (hsr : 0 < effSampleRate st an?) (hfft : 0 < effFFTSize st an?)
    (hdata : ∀ v ∈ st.smoothedFrequencyData, 0 ≤ v ∧ v ≤ 255) :
    ∀ b ∈ generateSpectrumBars st an? canvasWidth canvasHeight,
      (0 ≤ b.amplitude ∧ b.amplitude ≤ 1) ∧
      (0 ≤ b.height ∧ b.height ≤ 0.9 * canvasHeight) := by
  intro b hb
  simp only [generateSpectrumBars, List.mem_map, List.mem_range] at hb
  obtain ⟨i, hi, rfl⟩ := hb
  have hres : 0 < effSampleRate st an? / ((effFFTSize st an? : ℕ) : ℝ) :=
    div_pos hsr (by exact_mod_cast hfft)
  simp only [spectrumBarAt]
  have hsf : (0 : ℝ) ≤ (10 : ℝ) ^ (Real.logb 10 minFreq +
      ((i : ℝ) / (numBars : ℝ)) *
        (Real.logb 10 (maxDisplayFreq an?) - Real.logb 10 minFreq)) :=
    (Real.rpow_pos_of_pos (by norm_num) _).le
  have hbounds := getAveraged_bounds hdata _
    (if i = numBars - 1 then maxDisplayFreq an?
     else (10 : ℝ) ^ (Real.logb 10 minFreq +
       (((i : ℝ) + 1) / (numBars : ℝ)) *
         (Real.logb 10 (maxDisplayFreq an?) - Real.logb 10 minFreq)))
    _ st.smoothedFrequencyData.length hres hsf
  have hna0 : (0 : ℝ) ≤ getAveragedFrequencyAmplitude st.smoothedFrequencyData _ _ _
      st.smoothedFrequencyData.length / 255 := div_nonneg hbounds.1 (by norm_num)
  have hna1 : getAveragedFrequencyAmplitude st.smoothedFrequencyData _ _ _
      st.smoothedFrequencyData.length / 255 ≤ 1 :=
    (div_le_one (by norm_num)).mpr hbounds.2
  refine ⟨⟨hna0, hna1⟩, ?_, ?_⟩
  · exact le_max_left 0 _
  · apply max_le
    · nlinarith
    · set na := getAveragedFrequencyAmplitude st.smoothedFrequencyData _ _ _
        st.smoothedFrequencyData.length / 255 with hna
      have hLA : 0 ≤ (if 0 < na then Real.logb 10 (na * 9 + 1) else 0) ∧
          (if 0 < na then Real.logb 10 (na * 9 + 1) else 0) ≤ 1 := by
        split_ifs with hpos
        · constructor
          · exact Real.logb_nonneg (by norm_num) (by linarith)
          · calc Real.logb 10 (na * 9 + 1) ≤ Real.logb 10 10 :=
                Real.logb_le_logb_of_le (by norm_num) (by linarith) (by linarith)
              _ = 1 := Real.logb_self_eq_one (by norm_num)
        · norm_num
      nlinarith [hLA.1, hLA.2]

/-- Witness for C9: with an all-zero smoothed array, a 256-point
analyser at 48 kHz and a 100 × 1 canvas, the first generated bar has
amplitude in `[0, 1]` and height in `[0, 0.9]`. -/
theorem generateSpectrumBars_bounded_witness :
    (0 ≤ (spectrumBarAt (List.replicate 128 (0 : ℝ)) 48000 256
        (min maxFreq (48000 / 2)) 100 1 0).amplitude ∧
      (spectrumBarAt (List.replicate 128 (0 : ℝ)) 48000 256
        (min maxFreq (48000 / 2)) 100 1 0).amplitude ≤ 1) ∧
    (0 ≤ (spectrumBarAt (List.replicate 128 (0 : ℝ)) 48000 256
        (min maxFreq (48000 / 2)) 100 1 0).height ∧
      (spectrumBarAt (List.replicate 128 (0 : ℝ)) 48000 256
        (min maxFreq (48000 / 2)) 100 1 0).height ≤ 0.9 * 1) :=
  generateSpectrumBars_bounded
    ⟨List.replicate 128 0, List.replicate 128 0, true, 0, true, 256, 48000⟩
    (some ⟨256, 48000, 128⟩) 100 1 (by norm_num)
    (by norm_num [effSampleRate]) (by norm_num [effFFTSize])
    (fun v hv => by rw [List.eq_of_mem_replicate hv]; norm_num)
    (spectrumBarAt (List.replicate 128 (0 : ℝ)) 48000 256
      (min maxFreq (48000 / 2)) 100 1 0)
    (by
      simp only [generateSpectrumBars]
      exact List.mem_map.mpr ⟨0, List.mem_range.mpr (by norm_num [numBars]), rfl⟩)

/-! ## Constant-data evaluation of the averaging routine -/

/-- On a constant array the averaging fold keeps the weighted sum equal
to `c ×` the total weight, and the total weight is non-decreasing. -/
lemma avgStep_foldl_const {K : Type} [LinearOrderedField K] {n : ℕ} {c : K}
    (startFreq endFreq frequencyResolution : K) (hres : 0 < frequencyResolution)
    (bins : List ℤ) (hbins : ∀ b ∈ bins, 0 ≤ b ∧ b < (n : ℤ))
    (acc : K × K) (hacc : acc.1 = c * acc.2) :
    (bins.foldl (avgStep (List.replicate n c) startFreq endFreq
        frequencyResolution) acc).1 =
      c * (bins.foldl (avgStep (List.replicate n c) startFreq endFreq
        frequencyResolution) acc).2 ∧
    acc.2 ≤ (bins.foldl (avgStep (List.replicate n c) startFreq endFreq
        frequencyResolution) acc).2 := by
  induction bins generalizing acc with
  | nil => exact ⟨hacc, le_refl _⟩
  | cons bin bins ih =>
      have hbin := hbins bin (List.mem_cons_self bin bins)
      have hbins' : ∀ b ∈ bins, 0 ≤ b ∧ b < (n : ℤ) :=
        fun b hb => hbins b (List.mem_cons_of_mem bin hb)
      rw [List.foldl_cons]
      have hstep : (avgStep (List.replicate n c) startFreq endFreq
            frequencyResolution acc bin).1 =
          c * (avgStep (List.replicate n c) startFreq endFreq
            frequencyResolution acc bin).2 ∧
          acc.2 ≤ (avgStep (List.replicate n c) startFreq endFreq
            frequencyResolution acc bin).2 := by
        simp only [avgStep]
        split_ifs with hpos
        · have hw : (0 : K) ≤
              max 0 (min endFreq (((bin : K) + 1) * frequencyResolution) -
                max startFreq ((bin : K) * frequencyResolution)) /
                frequencyResolution :=
            div_nonneg (le_max_left _ _) (le_of_lt hres)
          rw [jsGet_replicate n c bin hbin.1 hbin.2]
          constructor
          · simp only []
            rw [hacc]
            ring
          · simp only []
            linarith
        · exact ⟨hacc, le_refl _⟩
      have := ih hbins' _ hstep.1
      exact ⟨this.1, le_trans hstep.2 this.2⟩

/-- The bin loop of the averaging routine visits `startBin` first
(when `startBin ≤ endBin` and `startBin < totalBins`), and every later
bin it visits is non-negative and below `totalBins`. -/
lemma binRange_head {s e : ℤ} {n : ℕ} (hse : s ≤ e) (hs0 : 0 ≤ s)
    (hsn : s < (n : ℤ)) :
    ∃ rest, binRange s e n = s :: rest ∧ ∀ b ∈ rest, 0 ≤ b ∧ b < (n : ℤ) := by
  unfold binRange
  have h1 : (e + 1 - s).toNat = (e - s).toNat + 1 := by omega
  rw [h1, List.range_succ_eq_map, List.map_cons, List.map_map,
    List.takeWhile_cons]
  simp only [Nat.cast_zero, add_zero]
  rw [if_pos (decide_eq_true hsn)]
  refine ⟨_, rfl, fun b hb => ?_⟩
  have hmem : b ∈ (List.range (e - s).toNat).map
      ((fun k : ℕ => s + (k : ℤ)) ∘ Nat.succ) :=
    List.takeWhile_subset _ hb
  have hlt : b < (n : ℤ) := by
    have := List.mem_takeWhile_imp hb
    exact of_decide_eq_true this
  obtain ⟨j, _, hj⟩ := List.mem_map.mp hmem
  constructor
  · rw [← hj]
    simp only [Function.comp]
    positivity
  · exact hlt

/-- On a constant array every well-formed averaging query returns the
constant: `getAveragedFrequencyAmplitude` of `replicate n c` is `c`
whenever the resolution is positive, `0 ≤ startFreq < endFreq`, and the
start frequency falls below the end of the bin array. -/
lemma getAveraged_replicate {K : Type} [LinearOrderedField K] [FloorRing K]
    (n : ℕ) (c startFreq endFreq frequencyResolution : K)
    (hres : 0 < frequencyResolution) (hsf : 0 ≤ startFreq)
    (hlt : startFreq < endFreq)
    (hn : ⌊startFreq / frequencyResolution⌋ < (n : ℤ)) :
    getAveragedFrequencyAmplitude (List.replicate n c) startFreq endFreq
      frequencyResolution n = c := by
  have hsbf : (0 : K) ≤ startFreq / frequencyResolution :=
    div_nonneg hsf (le_of_lt hres)
  have hfl0 : 0 ≤ ⌊startFreq / frequencyResolution⌋ := Int.floor_nonneg.mpr hsbf
  have hmax : max 0 ⌊startFreq / frequencyResolution⌋ =
      ⌊startFreq / frequencyResolution⌋ := max_eq_right hfl0
  simp only [getAveragedFrequencyAmplitude]
  rw [hmax]
  by_cases heq : ⌊startFreq / frequencyResolution⌋ =
      min ((n : ℤ) - 1) ⌈endFreq / frequencyResolution⌉
  · rw [if_pos heq]
    by_cases hlt2 : ⌊startFreq / frequencyResolution⌋ < (n : ℤ) - 1
    · rw [if_pos hlt2, jsGet_replicate n c _ hfl0 hn,
        jsGet_replicate n c _ (by omega) (by omega)]
      ring
    · rw [if_neg hlt2, jsGet_replicate n c _ hfl0 hn]
  · rw [if_neg heq]
    have hceil : ⌊startFreq / frequencyResolution⌋ ≤
        ⌈endFreq / frequencyResolution⌉ :=
      le_trans (Int.floor_le_ceil _)
        (Int.ceil_mono ((div_le_div_iff_of_pos_right hres).mpr (le_of_lt hlt)))
    have hse : ⌊startFreq / frequencyResolution⌋ ≤
        min ((n : ℤ) - 1) ⌈endFreq / frequencyResolution⌉ :=
      le_min (by omega) hceil
    obtain ⟨rest, hbr, hrest⟩ := binRange_head hse hfl0 hn
    rw [hbr, List.foldl_cons]
    have hos : max startFreq ((⌊startFreq / frequencyResolution⌋ : K) *
        frequencyResolution) = startFreq := by
      apply max_eq_left
      calc (⌊startFreq / frequencyResolution⌋ : K) * frequencyResolution ≤
          startFreq / frequencyResolution * frequencyResolution :=
            mul_le_mul_of_nonneg_right (Int.floor_le _) (le_of_lt hres)
        _ = startFreq := div_mul_cancel₀ _ (ne_of_gt hres)
    have hoe : startFreq < min endFreq
        (((⌊startFreq / frequencyResolution⌋ : K) + 1) * frequencyResolution) := by
      apply lt_min hlt
      calc startFreq = startFreq / frequencyResolution * frequencyResolution :=
            (div_mul_cancel₀ _ (ne_of_gt hres)).symm
        _ < ((⌊startFreq / frequencyResolution⌋ : K) + 1) * frequencyResolution :=
            mul_lt_mul_of_pos_right (Int.lt_floor_add_one _) hres
    have hamt : (0 : K) < max 0 (min endFreq
        (((⌊startFreq / frequencyResolution⌋ : K) + 1) * frequencyResolution) -
          startFreq) :=
      lt_max_of_lt_right (sub_pos.mpr hoe)
    have hstep : avgStep (List.replicate n c) startFreq endFreq
        frequencyResolution (0, 0) ⌊startFreq / frequencyResolution⌋ =
        (c * (max 0 (min endFreq
            (((⌊startFreq / frequencyResolution⌋ : K) + 1) * frequencyResolution) -
            startFreq) / frequencyResolution),
          max 0 (min endFreq
            (((⌊startFreq / frequencyResolution⌋ : K) + 1) * frequencyResolution) -
            startFreq) / frequencyResolution) := by
      simp only [avgStep, hos]
      rw [if_pos hamt, jsGet_replicate n c _ hfl0 hn]
      simp
    rw [hstep]
    have hw : (0 : K) < max 0 (min endFreq
        (((⌊startFreq / frequencyResolution⌋ : K) + 1) * frequencyResolution) -
          startFreq) / frequencyResolution :=
      div_pos hamt hres
    have hfold := avgStep_foldl_const startFreq endFreq frequencyResolution hres
      rest hrest
      (c * (max 0 (min endFreq
          (((⌊startFreq / frequencyResolution⌋ : K) + 1) * frequencyResolution) -
          startFreq) / frequencyResolution),
        max 0 (min endFreq
          (((⌊startFreq / frequencyResolution⌋ : K) + 1) * frequencyResolution) -
          startFreq) / frequencyResolution)
      rfl
    have hpos := lt_of_lt_of_le hw hfold.2
    rw [if_pos hpos, hfold.1, mul_div_cancel_right₀ c (ne_of_gt hpos)]

/-! ## Bar-field characterization -/

/-- Indexing into the generated bar list. -/
lemma generateSpectrumBars_getD (st : SpectrumState ℝ)
    (an? : Option (AnalyserInfo ℝ)) (cw ch : ℝ) {i : ℕ} (hi : i < numBars) :
    (generateSpectrumBars st an? cw ch).getD i default =
      spectrumBarAt st.smoothedFrequencyData (effSampleRate st an?)
        (effFFTSize st an?) (maxDisplayFreq an?) cw ch i := by
  simp only [generateSpectrumBars]
  exact getD_map_range _ _ hi

/-- The fields of the bar built at index `i`, written out. -/
lemma spectrumBarAt_fields (data : List ℝ) (sr : ℝ) (fft : ℕ)
    (maxDF cw ch : ℝ) (i : ℕ) :
    (spectrumBarAt data sr fft maxDF cw ch i).x = (i : ℝ) * (cw / (numBars : ℝ)) ∧
    (spectrumBarAt data sr fft maxDF cw ch i).width = cw / (numBars : ℝ) - 1 ∧
    (spectrumBarAt data sr fft maxDF cw ch i).frequency =
      (10 : ℝ) ^ (Real.logb 10 minFreq + ((i : ℝ) / (numBars : ℝ)) *
        (Real.logb 10 maxDF - Real.logb 10 minFreq)) ∧
    (spectrumBarAt data sr fft maxDF cw ch i).amplitude =
      getAveragedFrequencyAmplitude data
        ((10 : ℝ) ^ (Real.logb 10 minFreq + ((i : ℝ) / (numBars : ℝ)) *
          (Real.logb 10 maxDF - Real.logb 10 minFreq)))
        (if i = numBars - 1 then maxDF
         else (10 : ℝ) ^ (Real.logb 10 minFreq + (((i : ℝ) + 1) / (numBars : ℝ)) *
           (Real.logb 10 maxDF - Real.logb 10 minFreq)))
        (sr / (fft : ℝ)) data.length / 255 :=
  ⟨rfl, rfl, rfl, rfl⟩

/-- Claim C2 (amended): with an analyser available,
`generateSpectrumBars` returns exactly `numBars` (100) bars whose `x`,
`width` and `frequency` follow the claimed log-frequency formulas with
`maxDisplayFreq = min 20000 (sampleRate / 2)`, and whose amplitude is
the overlap-weighted average of the smoothed bins over the bar's
frequency range divided by 255 (normalized to `[0, 1]`). -/
theorem generateSpectrumBars_spec (st : SpectrumState ℝ) (a : AnalyserInfo ℝ)
    (cw ch : ℝ) :
    (generateSpectrumBars st (some a) cw ch).length = numBars ∧
    ∀ i : ℕ, i < numBars →
      ((generateSpectrumBars st (some a) cw ch).getD i default).x =
        (i : ℝ) * cw / (numBars : ℝ) ∧
      ((generateSpectrumBars st (some a) cw ch).getD i default).width =
        cw / (numBars : ℝ) - 1 ∧
      ((generateSpectrumBars st (some a) cw ch).getD i default).frequency =
        (10 : ℝ) ^ (Real.logb 10 minFreq + ((i : ℝ) / (numBars : ℝ)) *
          (Real.logb 10 (min maxFreq (a.sampleRate / 2)) - Real.logb 10 minFreq)) ∧
      ((generateSpectrumBars st (some a) cw ch).getD i default).amplitude =
        getAveragedFrequencyAmplitude st.smoothedFrequencyData
          ((10 : ℝ) ^ (Real.logb 10 minFreq + ((i : ℝ) / (numBars : ℝ)) *
            (Real.logb 10 (min maxFreq (a.sampleRate / 2)) - Real.logb 10 minFreq)))
          (if i = numBars - 1 then min maxFreq (a.sampleRate / 2)
           else (10 : ℝ) ^ (Real.logb 10 minFreq + (((i : ℝ) + 1) / (numBars : ℝ)) *
             (Real.logb 10 (min maxFreq (a.sampleRate / 2)) - Real.logb 10 minFreq)))
          (a.sampleRate / (a.fftSize : ℝ)) st.smoothedFrequencyData.length / 255 := by
  refine ⟨by simp [generateSpectrumBars], fun i hi => ?_⟩
  rw [generateSpectrumBars_getD st (some a) cw ch hi]
  have hfields := spectrumBarAt_fields st.smoothedFrequencyData
    (effSampleRate st (some a)) (effFFTSize st (some a))
    (maxDisplayFreq (some a)) cw ch i
  exact ⟨by rw [hfields.1, mul_div_assoc], hfields.2.1, hfields.2.2.1,
    hfields.2.2.2⟩

/-- Witness for the amended C2 at a concrete state and canvas. -/
theorem generateSpectrumBars_spec_witness :
    (generateSpectrumBars ⟨[], [], true, 0, true, 256, 48000⟩
        (some ⟨256, 48000, 128⟩) 200 1).length = numBars ∧
    ((generateSpectrumBars ⟨[], [], true, 0, true, 256, 48000⟩
        (some ⟨256, 48000, 128⟩) 200 1).getD 0 default).width =
      200 / (numBars : ℝ) - 1 :=
  ⟨(generateSpectrumBars_spec ⟨[], [], true, 0, true, 256, 48000⟩
      ⟨256, 48000, 128⟩ 200 1).1,
   ((generateSpectrumBars_spec ⟨[], [], true, 0, true, 256, 48000⟩
      ⟨256, 48000, 128⟩ 200 1).2 0 (by norm_num [numBars])).2.1⟩

/-- The first bar's frequency range starts at `20` Hz and is
well-formed: its start bin is `0`. -/
lemma floor_first_bar_bin : ⌊(20 : ℝ) / (48000 / 256)⌋ = 0 := by
  rw [show (20 : ℝ) / (48000 / 256) = 8 / 75 by norm_num, Int.floor_eq_zero_iff]
  constructor <;> norm_num

/-- Counterexample to C2 as stated: with all smoothed bins equal to
255, a 256-point analyser at 48 kHz and a 100 × 1 canvas, bar 0's
amplitude is `1` (the code normalizes by 255), while the
overlap-weighted average of the smoothed bins over the bar's frequency
range (from bar 0's frequency to bar 1's frequency) is `255`. -/
theorem barAmplitude_not_raw_average :
    ((generateSpectrumBars
        ⟨List.replicate 128 255, List.replicate 128 255, true, 0, true, 256, 48000⟩
        (some ⟨256, 48000, 128⟩) 100 1).getD 0 default).amplitude ≠
      getAveragedFrequencyAmplitude (List.replicate 128 (255 : ℝ))
        (((generateSpectrumBars
            ⟨List.replicate 128 255, List.replicate 128 255, true, 0, true, 256, 48000⟩
            (some ⟨256, 48000, 128⟩) 100 1).getD 0 default).frequency)
        (((generateSpectrumBars
            ⟨List.replicate 128 255, List.replicate 128 255, true, 0, true, 256, 48000⟩
            (some ⟨256, 48000, 128⟩) 100 1).getD 1 default).frequency)
        (48000 / 256) 128 := by
  rw [generateSpectrumBars_getD _ _ _ _ (by norm_num [numBars]),
    generateSpectrumBars_getD _ _ _ _ (by norm_num [numBars])]
  have hmin : min maxFreq ((48000 : ℝ) / 2) = maxFreq :=
    min_eq_left (by norm_num [maxFreq])
  have hfields0 := spectrumBarAt_fields (List.replicate 128 (255 : ℝ))
    48000 256 maxFreq 100 1 0
  have hfields1 := spectrumBarAt_fields (List.replicate 128 (255 : ℝ))
    48000 256 maxFreq 100 1 1
  have hF0 : (10 : ℝ) ^ (Real.logb 10 minFreq + ((0 : ℕ) : ℝ) / (numBars : ℝ) *
      (Real.logb 10 maxFreq - Real.logb 10 minFreq)) = 20 := by
    rw [show ((0 : ℕ) : ℝ) / (numBars : ℝ) *
        (Real.logb 10 maxFreq - Real.logb 10 minFreq) = 0 by norm_num, add_zero,
      Real.rpow_logb (by norm_num) (by norm_num) (by norm_num [minFreq])]
    norm_num [minFreq]
  have hgt : ∀ p : ℝ, 0 < p →
      (20 : ℝ) < (10 : ℝ) ^ (Real.logb 10 minFreq + p *
        (Real.logb 10 maxFreq - Real.logb 10 minFreq)) := by
    intro p hp
    have h20 : (20 : ℝ) = (10 : ℝ) ^ (Real.logb 10 minFreq) := by
      rw [Real.rpow_logb (by norm_num) (by norm_num) (by norm_num [minFreq])]
      norm_num [minFreq]
    rw [h20]
    apply (Real.rpow_lt_rpow_left_iff (by norm_num)).mpr
    have := logSpan_eq_three
    nlinarith
  have havg : ∀ ef : ℝ, 20 < ef →
      getAveragedFrequencyAmplitude (List.replicate 128 (255 : ℝ)) 20 ef
        (48000 / 256) 128 = 255 := by
    intro ef hef
    exact getAveraged_replicate 128 255 20 ef (48000 / 256) (by norm_num)
      (by norm_num) hef (by rw [floor_first_bar_bin]; norm_num)
  simp only [effSampleRate, effFFTSize, maxDisplayFreq]
  rw [hmin]
  rw [hfields0.2.2.2, hfields0.2.2.1, hfields1.2.2.1]
  rw [hF0]
  have hne : (0 : ℕ) ≠ numBars - 1 := by norm_num [numBars]
  rw [if_neg hne]
  have hlen : (List.replicate 128 (255 : ℝ)).length = 128 := by simp
  rw [hlen]
  rw [show (48000 : ℝ) / ((256 : ℕ) : ℝ) = 48000 / 256 from by norm_num]
  have hnf0 : (20 : ℝ) < (10 : ℝ) ^ (Real.logb 10 minFreq +
      (((0 : ℕ) : ℝ) + 1) / (numBars : ℝ) *
        (Real.logb 10 maxFreq - Real.logb 10 minFreq)) := by
    apply hgt
    norm_num [numBars]
  have hnf1 : (20 : ℝ) < (10 : ℝ) ^ (Real.logb 10 minFreq +
      ((1 : ℕ) : ℝ) / (numBars : ℝ) *
        (Real.logb 10 maxFreq - Real.logb 10 minFreq)) := by
    apply hgt
    norm_num [numBars]
  rw [havg _ hnf0, havg _ hnf1]
  norm_num

end FreeShow
